import Mathlib

/-!
Shallow embedding of `src/src/DynSLAM/InstRecLib/Track.h` (DynSLAM instance
track management). C++ `int` values are modelled as `Int` (or `Nat` where the
source only ever stores non-negative counts), `std::vector` as `List`,
`std::shared_ptr` / nullable pointers as `Option`, and the Eigen 4x4 float /
double matrices as exact rational matrices: no claim under consideration
depends on floating-point rounding of matrix entries.
-/

set_option autoImplicit false

/-- A 4x4 rigid-transform matrix. The source uses `Eigen::Matrix4f` for camera
poses and `Eigen::Matrix4d` for relative poses; both are idealised over ℚ. -/
abbrev Mat4 : Type := Matrix (Fin 4) (Fin 4) ℚ

/-- Modelled from the spec: the detection result (header not in the sources)
"must expose a class label string" (§6); `Track::GetClassName` reaches it via
`instance_view.GetInstanceDetection().GetClassName()`. -/
structure InstanceDetection where
  class_name : String

def InstanceDetection.GetClassName (d : InstanceDetection) : String :=
  d.class_name

/-- Modelled from the spec: the per-frame segmentation view (header not in the
sources); it hands out the underlying `InstanceDetection`. -/
structure InstanceView where
  instance_detection : InstanceDetection

def InstanceView.GetInstanceDetection (v : InstanceView) : InstanceDetection :=
  v.instance_detection

/-- Source `enum TrackState` from Track.h. -/
inductive TrackState where
  | kStatic
  | kDynamic
  | kUncertain
  deriving DecidableEq, Repr

/-- Source `struct TrackFrame`: one frame of an instance track. `relative_pose` in the
source is a pointer to a `dynslam::utils::Option<Eigen::Matrix4d>`; the pointer
indirection is elided and the held optional modelled directly. -/
structure TrackFrame where
  frame_idx : Int
  instance_view : InstanceView
  camera_pose : Mat4
  relative_pose : Option Mat4

/-- Modelled from the spec: the reconstruction volume handle
(`dynslam::drivers::InfiniTamDriver`, header not in the sources) "must support
`reap(weight: integer)`" (§6). The model records the weights of the `Reap`
calls it has received, newest last, so that theorems can speak about the
weight a call passes down. -/
structure InfiniTamDriver where
  reaped : List Nat

def InfiniTamDriver.Reap (d : InfiniTamDriver) (weight : Nat) : InfiniTamDriver :=
  ⟨d.reaped ++ [weight]⟩

/-- Source `class Track` private state (Track.h lines 179-201). `fused_frames_` is a
C++ `int` initialised to 0 and only ever incremented, so it is modelled as
`Nat`. `last_known_motion_` is default-garbage until first set, hence an
`Option`. -/
structure Track where
  id_ : Int
  frames_ : List TrackFrame
  reconstruction_ : Option InfiniTamDriver
  needs_cleanup_ : Bool
  track_state_ : TrackState
  last_known_motion_time_ : Int
  last_known_motion_ : Option Mat4
  fused_frames_ : Nat

/-- Source `Track(int id)` constructor: null reconstruction, no cleanup pending,
state `kUncertain`, empty frame vector, `fused_frames_ = 0`,
`last_known_motion_time_ = -1`. -/
def Track.init (id : Int) : Track :=
  { id_ := id
    frames_ := []
    reconstruction_ := none
    needs_cleanup_ := false
    track_state_ := TrackState.kUncertain
    last_known_motion_time_ := -1
    last_known_motion_ := none
    fused_frames_ := 0 }

/-- Source `void AddFrame(const TrackFrame&)` is `frames_.push_back(new_frame)`. -/
def Track.AddFrame (t : Track) (new_frame : TrackFrame) : Track :=
  { t with frames_ := t.frames_ ++ [new_frame] }

/-- Source `size_t GetSize() const` is `frames_.size()`. -/
def Track.GetSize (t : Track) : Nat :=
  t.frames_.length

/-- Source `TrackFrame& GetLastFrame()` is `frames_.back()`; calling `back()` on an
empty vector is undefined behaviour, so the embedding returns an `Option`. -/
def Track.GetLastFrame (t : Track) : Option TrackFrame :=
  t.frames_.getLast?

/-- Source `int GetStartTime() const` is `frames_.front().frame_idx`; `front()` on an
empty vector is undefined behaviour, hence `Option`. -/
def Track.GetStartTime (t : Track) : Option Int :=
  t.frames_.head?.map TrackFrame.frame_idx

/-- Source `int GetEndTime() const` is `frames_.back().frame_idx`. -/
def Track.GetEndTime (t : Track) : Option Int :=
  t.frames_.getLast?.map TrackFrame.frame_idx

/-- Source `bool HasReconstruction() const` is `reconstruction_.get() != nullptr`. -/
def Track.HasReconstruction (t : Track) : Bool :=
  t.reconstruction_.isSome

/-- Source `bool NeedsCleanup() const`. -/
def Track.NeedsCleanup (t : Track) : Bool :=
  t.needs_cleanup_

/-- Source `TrackState GetState() const`. -/
def Track.GetState (t : Track) : TrackState :=
  t.track_state_

/-- Source `bool EligibleForReconstruction() const` is `GetSize() >= 6`. -/
def Track.EligibleForReconstruction (t : Track) : Bool :=
  decide (6 ≤ t.GetSize)

/-- Source `void CountFusedFrame()` is `fused_frames_++`. -/
def Track.CountFusedFrame (t : Track) : Track :=
  { t with fused_frames_ := t.fused_frames_ + 1 }

/-- Outcome of `GetClassName`: either the class string, an assertion abort, or
an out-of-bounds `back()` dereference (undefined behaviour). -/
inductive ClassNameOutcome where
  | ok (s : String)
  | assertFailed
  | invalidDeref
  deriving DecidableEq, Repr

/-- The condition of the `assert` in `GetClassName` (Track.h line 98):
`frames_.size() > 0 || "Need at least one frame to determine a track's class."`.
In C the string literal decays to a non-null pointer, which converts to `true`,
so the right-hand side of `||` is the constant `true`. -/
def Track.GetClassNameAssertCond (t : Track) : Bool :=
  decide (0 < t.frames_.length) || true

/-- Source `std::string GetClassName() const`: runs the assert, then
`GetLastFrame().instance_view.GetInstanceDetection().GetClassName()`. On an
empty track `back()` is an invalid dereference. -/
def Track.GetClassName (t : Track) : ClassNameOutcome :=
  if t.GetClassNameAssertCond then
    match t.frames_.getLast? with
    | some f => ClassNameOutcome.ok f.instance_view.GetInstanceDetection.GetClassName
    | none => ClassNameOutcome.invalidDeref
  else ClassNameOutcome.assertFailed

/-- The loop of `GetFirstFusableFrameIndex` (Track.h lines 160-164): index of
the first frame whose `relative_pose->IsPresent()`, if any. -/
def firstPresentIdx : List TrackFrame → Option Nat
  | [] => none
  | f :: rest =>
    if f.relative_pose.isSome then some 0
    else (firstPresentIdx rest).map (· + 1)

/-- Source `int GetFirstFusableFrameIndex() const`: -1 on an empty track, else
`max(0, i - 1)` for the first index `i` with a present relative pose, else
-1. -/
def Track.GetFirstFusableFrameIndex (t : Track) : Int :=
  if t.frames_.isEmpty then -1
  else
    match firstPresentIdx t.frames_ with
    | some i => max 0 ((i : Int) - 1)
    | none => -1

/-- The reap weight of `ReapReconstruction` (Track.h line 174):
`max(1, min(5, static_cast<int>(0.33 * fused_frames_)))`. The C++ cast
truncates the double `0.33 * fused_frames_` toward zero; the double constant
`0.33` is modelled as the rational 33/100. For every count the clamped result
agrees with the binary64 computation: the clamp is only sensitive for counts
below 18, where `0.33 * n` stays well over 1e-2 away from every integer, far
beyond the 1-ulp rounding error of the product. -/
def reapWeight (fused_frames : Nat) : Nat :=
  max 1 (min 5 (33 * fused_frames / 100))

/-- Outcome of `ReapReconstruction`: either the updated track (the owned
volume having received `Reap(weight)`), or the dereference of a null
`reconstruction_` handle (undefined behaviour; the source has no guard). -/
inductive ReapOutcome where
  | ok (t : Track)
  | nullDeref

/-- Source `void ReapReconstruction()`: computes the weight, then unconditionally
does `reconstruction_->Reap(reap_weight)`. -/
def Track.ReapReconstruction (t : Track) : ReapOutcome :=
  let reap_weight := reapWeight t.fused_frames_
  match t.reconstruction_ with
  | some r =>
    ReapOutcome.ok { t with reconstruction_ := some (r.Reap reap_weight) }
  | none => ReapOutcome.nullDeref

/-- Modelled from the spec: the per-frame observation fed to `Update`
(`Track::Update` is only declared in Track.h; its body lives in Track.cpp,
which is not among the sources). Each update either obtains a relative pose
with a residual translation magnitude, or finds the estimate unavailable
(§4.2 steps 1-2). -/
inductive PoseObservation where
  | available (residual : ℚ)
  | unavailable
  deriving DecidableEq

/-- Modelled from the spec: the state `Update`'s hysteresis policy acts on —
the track state plus the consecutive uncertain-frame counter (§4.2 step 3). -/
structure UpdateMachineState where
  track_state : TrackState
  uncertain_frames : Nat
  deriving DecidableEq, Repr

/-- Source `kTransErrorTreshold = 0.20f` (Track.h line 54), modelled exactly. -/
def kTransErrorTreshold : ℚ := mkRat 20 100

/-- Source `kMaxUncertainFramesStatic = 3` (Track.h line 49). -/
def kMaxUncertainFramesStatic : Nat := 3

/-- Source `kMaxUncertainFramesDynamic = 2` (Track.h line 51). -/
def kMaxUncertainFramesDynamic : Nat := 2

/-- Modelled from the spec: one `Update` state transition (§4.2 step 3).
From `kUncertain`, a single available observation below the threshold moves to
`kStatic`, above moves to `kDynamic`. From `kStatic`/`kDynamic`, an available
observation above the threshold moves to `kDynamic`, below keeps the state
(no immediate dynamic→static demotion) and resets the counter; an unavailable
observation increments the counter and reverts to `kUncertain` once it
strictly exceeds the state's maximum. The spec does not describe the counter
while already `kUncertain` with an unavailable pose; the state stays
`kUncertain` there. -/
def TrackUpdate (s : UpdateMachineState) (o : PoseObservation) : UpdateMachineState :=
  match o with
  | PoseObservation.available r =>
    match s.track_state with
    | TrackState.kUncertain =>
      ⟨if r < kTransErrorTreshold then TrackState.kStatic else TrackState.kDynamic, 0⟩
    | TrackState.kStatic =>
      ⟨if r < kTransErrorTreshold then TrackState.kStatic else TrackState.kDynamic, 0⟩
    | TrackState.kDynamic => ⟨TrackState.kDynamic, 0⟩
  | PoseObservation.unavailable =>
    match s.track_state with
    | TrackState.kUncertain => ⟨TrackState.kUncertain, s.uncertain_frames⟩
    | TrackState.kStatic =>
      if s.uncertain_frames + 1 > kMaxUncertainFramesStatic then ⟨TrackState.kUncertain, 0⟩
      else ⟨TrackState.kStatic, s.uncertain_frames + 1⟩
    | TrackState.kDynamic =>
      if s.uncertain_frames + 1 > kMaxUncertainFramesDynamic then ⟨TrackState.kUncertain, 0⟩
      else ⟨TrackState.kDynamic, s.uncertain_frames + 1⟩

/-- A sequence of consecutive `Update` observations applied in order. -/
def applyUpdates (s : UpdateMachineState) (os : List PoseObservation) : UpdateMachineState :=
  os.foldl TrackUpdate s

/-- Modelled from the spec: the pose-chain composition of `GetFramePose`
(§4.4; body in Track.cpp, not among the sources). Composes a list of
relative-pose links; absent as soon as one link is absent. -/
def chainPose : List (Option Mat4) → Option Mat4
  | [] => some 1
  | none :: _ => none
  | some m :: rest => (chainPose rest).map (fun acc => acc * m)

/-- Modelled from the spec: `GetFramePose(frame_idx)` returns the pose of the
frame at position `frame_idx` relative to the track's first frame by composing
the relative poses of frames 1..frame_idx (frame 0 is the anchor); absent if
any link is absent (§4.4). Out-of-range queries yield absent. -/
def Track.GetFramePose (t : Track) (frame_idx : Nat) : Option Mat4 :=
  if frame_idx < t.frames_.length then
    chainPose (((t.frames_.take (frame_idx + 1)).drop 1).map TrackFrame.relative_pose)
  else none

/-- A concrete detection view used by the concrete test tracks below. -/
def carView : InstanceView := ⟨⟨"car"⟩⟩

/-- A concrete frame with the given index and relative pose. -/
def sampleFrame (i : Int) (rp : Option Mat4) : TrackFrame :=
  ⟨i, carView, 0, rp⟩

/-- Track with a volume and 15 fused frames (for the reap-weight claims). -/
def reapTrack15 : Track :=
  { Track.init 1 with reconstruction_ := some ⟨[]⟩, fused_frames_ := 15 }

/-- Track whose only present relative pose sits at position 2. -/
def fusableTrack : Track :=
  { Track.init 2 with
      frames_ := [sampleFrame 10 none, sampleFrame 11 none, sampleFrame 12 (some 1)] }

/-- A track built by out-of-order `AddFrame` calls: indices 5 then 3. -/
def unorderedTrack : Track :=
  [sampleFrame 5 none, sampleFrame 3 none].foldl Track.AddFrame (Track.init 3)

/-- Track whose frame 1 has no relative pose but frame 2 has one. -/
def gapTrack : Track :=
  { Track.init 4 with
      frames_ := [sampleFrame 0 none, sampleFrame 1 none, sampleFrame 2 (some 1)] }

/-- An ordered frame list used to witness the time-bound invariant. -/
def orderedFrames : List TrackFrame :=
  [sampleFrame 2 none, sampleFrame 4 none, sampleFrame 4 none, sampleFrame 9 (some 1)]

/-! ## Claim theorems -/

/-- C9: a freshly constructed `Track` (for any id) has state `kUncertain`,
size 0, no owned reconstruction, and no cleanup pending. -/
theorem Track_init_spec (id : Int) :
    (Track.init id).GetState = TrackState.kUncertain ∧
    (Track.init id).GetSize = 0 ∧
    (Track.init id).HasReconstruction = false ∧
    (Track.init id).NeedsCleanup = false :=
  ⟨rfl, rfl, rfl, rfl⟩

/-- C10: `AddFrame f` grows the size by one, makes `f` the last frame (so
`GetEndTime` is `f`'s index), keeps every previously stored frame in place,
and leaves the track state, reconstruction handle, cleanup flag and
fused-frame counter untouched. -/
theorem AddFrame_effect (t : Track) (f : TrackFrame) :
    (t.AddFrame f).GetSize = t.GetSize + 1 ∧
    (t.AddFrame f).GetLastFrame = some f ∧
    (t.AddFrame f).GetEndTime = some f.frame_idx ∧
    (t.AddFrame f).frames_.take t.frames_.length = t.frames_ ∧
    (t.AddFrame f).track_state_ = t.track_state_ ∧
    (t.AddFrame f).reconstruction_ = t.reconstruction_ ∧
    (t.AddFrame f).needs_cleanup_ = t.needs_cleanup_ ∧
    (t.AddFrame f).fused_frames_ = t.fused_frames_ := by
  refine ⟨?_, ?_, ?_, ?_, rfl, rfl, rfl, rfl⟩
  · simp [Track.AddFrame, Track.GetSize]
  · simp [Track.AddFrame, Track.GetLastFrame]
  · simp [Track.AddFrame, Track.GetEndTime]
  · simp [Track.AddFrame, List.take_left]

/-- C5: `EligibleForReconstruction` is true exactly when the track holds at
least 6 frames, regardless of their content. -/
theorem EligibleForReconstruction_iff (t : Track) :
    (t.EligibleForReconstruction = true ↔ 6 ≤ t.GetSize) ∧
    (t.EligibleForReconstruction = false ↔ t.GetSize < 6) := by
  constructor
  · simp [Track.EligibleForReconstruction]
  · simp [Track.EligibleForReconstruction, Nat.not_le]

/-- C3: the `assert` guarding `GetClassName` never fires — its condition
`frames_.size() > 0 || "..."` is identically true because the string literal
is a non-null pointer — so on an empty track the call sails past the assert
and dereferences `back()` of an empty vector (undefined behaviour) instead of
failing the assertion. -/
theorem GetClassName_empty_passes_assert :
    (Track.init 0).GetClassNameAssertCond = true ∧
    (Track.init 0).GetClassName = ClassNameOutcome.invalidDeref ∧
    (Track.init 0).GetClassName ≠ ClassNameOutcome.assertFailed := by
  refine ⟨rfl, rfl, ?_⟩
  decide

/-- C8: `ReapReconstruction` on a track owning no volume does not reject the
call: it goes straight to `reconstruction_->Reap(...)`, a null-handle
dereference (undefined behaviour) — there is no assertion or fatal error in
the source. -/
theorem ReapReconstruction_no_volume :
    (Track.init 7).HasReconstruction = false ∧
    (Track.init 7).ReapReconstruction = ReapOutcome.nullDeref :=
  ⟨rfl, rfl⟩

/-- C1 counterexample: with `fused_frames = 15` the code's weight is
`max(1, min(5, trunc(0.33 * 15))) = trunc(4.95) = 4`, not the
`clamp(round(4.95), 1, 5) = 5` the claim states; the `Reap` call receives 4. -/
theorem ReapReconstruction_round_counterexample :
    reapWeight 15 = 4 ∧ (4 : Nat) ≠ 5 ∧
    reapTrack15.ReapReconstruction =
      ReapOutcome.ok { reapTrack15 with reconstruction_ := some ⟨[4]⟩ } := by
  refine ⟨by decide, by decide, rfl⟩

/-- C1 (amended): `ReapReconstruction` calls `Reap` on the owned volume with
weight `clamp(trunc(0.33 * fused_frames), 1, 5)`, always an integer in [1,5];
it is 1 for 0 fused frames, 1 for 3, and 4 (not 5) for 15. -/
theorem ReapReconstruction_weight_spec :
    (∀ n : Nat, 1 ≤ reapWeight n ∧ reapWeight n ≤ 5) ∧
    reapWeight 0 = 1 ∧ reapWeight 3 = 1 ∧ reapWeight 15 = 4 ∧
    ∀ (t : Track) (r : InfiniTamDriver), t.reconstruction_ = some r →
      t.ReapReconstruction =
        ReapOutcome.ok
          { t with reconstruction_ := some (r.Reap (reapWeight t.fused_frames_)) } := by
  refine ⟨?_, by decide, by decide, by decide, ?_⟩
  · intro n
    exact ⟨le_max_left _ _, max_le (by decide) (min_le_left _ _)⟩
  · intro t r h
    simp [Track.ReapReconstruction, h]

/-- C1 amended-claim witness at the concrete track with 15 fused frames. -/
theorem ReapReconstruction_weight_spec_witness :
    reapTrack15.ReapReconstruction =
      ReapOutcome.ok
        { reapTrack15 with
            reconstruction_ := some (InfiniTamDriver.Reap ⟨[]⟩ (reapWeight 15)) } :=
  ReapReconstruction_weight_spec.2.2.2.2 reapTrack15 ⟨[]⟩ rfl

/-- The loop finds nothing exactly when no frame has a present relative pose. -/
theorem firstPresentIdx_eq_none_iff (l : List TrackFrame) :
    firstPresentIdx l = none ↔ ∀ f ∈ l, f.relative_pose = none := by
  induction l with
  | nil => simp [firstPresentIdx]
  | cons f rest ih =>
    by_cases hf : f.relative_pose.isSome
    · simp only [firstPresentIdx, hf, if_true]
      constructor
      · intro hc; exact absurd hc (by simp)
      · intro hall
        exact absurd (hall f (List.mem_cons_self f rest))
          (by simpa [Option.isSome_iff_ne_none] using hf)
    · have hfn : f.relative_pose = none := Option.not_isSome_iff_eq_none.mp hf
      constructor
      · intro h g hg
        rcases List.mem_cons.mp hg with rfl | hg2
        · exact hfn
        · refine ih.mp ?_ g hg2
          simpa [firstPresentIdx, hfn] using h
      · intro hall
        have hrest : firstPresentIdx rest = none :=
          ih.mpr fun g hg => hall g (List.mem_cons_of_mem f hg)
        simp [firstPresentIdx, hfn, hrest]

/-- The loop returns the index of the first present relative pose. -/
theorem firstPresentIdx_eq_some (l : List TrackFrame) (i : Nat) (hi : i < l.length)
    (hpres : (l.get ⟨i, hi⟩).relative_pose.isSome = true)
    (hmin : ∀ j, (hj : j < l.length) → j < i → (l.get ⟨j, hj⟩).relative_pose = none) :
    firstPresentIdx l = some i := by
  induction l generalizing i with
  | nil => exact absurd hi (Nat.not_lt_zero i)
  | cons f rest ih =>
    cases i with
    | zero =>
      have hf : f.relative_pose.isSome = true := hpres
      simp [firstPresentIdx, hf]
    | succ n =>
      have hf : f.relative_pose = none :=
        hmin 0 (Nat.succ_pos _) (Nat.succ_pos n)
      have hrest : firstPresentIdx rest = some n :=
        ih n (Nat.lt_of_succ_lt_succ hi) hpres
          (fun j hj hjn =>
            hmin (j + 1) (Nat.succ_lt_succ hj) (Nat.succ_lt_succ hjn))
      simp [firstPresentIdx, hf, hrest]

/-- C2: `GetFirstFusableFrameIndex` returns -1 when the track has no frames or
no frame has a present relative pose (the first conjunct covers both), and
returns `max(0, i - 1)` when position `i` holds the first present relative
pose. -/
theorem GetFirstFusableFrameIndex_spec (t : Track) :
    ((∀ f ∈ t.frames_, f.relative_pose = none) →
      t.GetFirstFusableFrameIndex = -1) ∧
    ∀ i : Fin t.frames_.length,
      (t.frames_.get i).relative_pose.isSome = true →
      (∀ j : Fin t.frames_.length, (j : Nat) < (i : Nat) →
        (t.frames_.get j).relative_pose = none) →
      t.GetFirstFusableFrameIndex = max 0 (((i : Nat) : Int) - 1) := by
  constructor
  · intro hall
    unfold Track.GetFirstFusableFrameIndex
    rw [(firstPresentIdx_eq_none_iff t.frames_).mpr hall]
    by_cases he : t.frames_.isEmpty <;> simp [he]
  · intro i hp hmin
    have hne : t.frames_.isEmpty = false := by
      cases hl : t.frames_ with
      | nil => rw [hl] at i; exact absurd i.isLt (by simp)
      | cons a l => rfl
    have hfp : firstPresentIdx t.frames_ = some (i : Nat) :=
      firstPresentIdx_eq_some t.frames_ (i : Nat) i.isLt hp
        (fun j hj hji => hmin ⟨j, hj⟩ hji)
    unfold Track.GetFirstFusableFrameIndex
    simp [hne, hfp]

/-- C2 witness: on the track whose only present relative pose sits at
position 2 the result is `max 0 (2 - 1) = 1`, and on a fresh empty track
it is -1. -/
theorem GetFirstFusableFrameIndex_spec_witness :
    fusableTrack.GetFirstFusableFrameIndex = max 0 (((2 : Nat) : Int) - 1) ∧
    (Track.init 9).GetFirstFusableFrameIndex = -1 :=
  ⟨(GetFirstFusableFrameIndex_spec fusableTrack).2 ⟨2, by decide⟩ (by decide)
      (by decide),
   (GetFirstFusableFrameIndex_spec (Track.init 9)).1 (by simp [Track.init])⟩

/-- An absent link anywhere makes the whole composition absent. -/
theorem chainPose_of_mem_none (l : List (Option Mat4)) (h : none ∈ l) :
    chainPose l = none := by
  induction l with
  | nil => simp at h
  | cons p rest ih =>
    cases p with
    | none => rfl
    | some m =>
      rcases List.mem_cons.mp h with h1 | h2
      · exact absurd h1 (by simp)
      · simp [chainPose, ih h2]

/-- C7: `GetFramePose` is absent whenever any relative pose in the chain from
the first frame up to the queried position is absent, regardless of what the
later links hold: the composition short-circuits on the missing link. -/
theorem GetFramePose_absent_link (t : Track) (i j : Nat) (h1 : 1 ≤ j)
    (hji : j ≤ i) (hj : j < t.frames_.length)
    (habs : (t.frames_.get ⟨j, hj⟩).relative_pose = none) :
    t.GetFramePose i = none := by
  unfold Track.GetFramePose
  by_cases hi : i < t.frames_.length
  · rw [if_pos hi]
    apply chainPose_of_mem_none
    have hsub : ((t.frames_.take (i + 1)).drop 1)[j - 1]? =
        some (t.frames_.get ⟨j, hj⟩) := by
      rw [List.getElem?_drop, List.getElem?_take]
      have hjj : 1 + (j - 1) = j := by omega
      rw [if_pos (by omega)]
      rw [hjj, List.getElem?_eq_getElem hj]
      rfl
    refine List.getElem?_mem (n := j - 1) ?_
    rw [List.getElem?_map, hsub]
    simp only [Option.map_some']
    exact congrArg some habs
  · rw [if_neg hi]

/-- C7 witness: on the track whose frame 1 lacks a relative pose while frame 2
has one, querying position 2 yields absent even though the later link is
present. -/
theorem GetFramePose_absent_link_witness :
    (gapTrack.frames_.get ⟨2, by decide⟩).relative_pose.isSome = true ∧
    gapTrack.GetFramePose 2 = none :=
  ⟨by decide,
   GetFramePose_absent_link gapTrack 2 1 (by decide) (by decide) (by decide)
     (by decide)⟩

/-- C6: from `kStatic` with a fresh counter, `n ≤ kMaxUncertainFramesStatic`
consecutive unavailable-pose updates leave the state `kStatic` (the counter
reading `n`), the `(kMaxUncertainFramesStatic + 1)`-th such update — the 4th —
reverts it to `kUncertain`; and from `kUncertain` a single update whose
residual lies below the 0.20 threshold moves to `kStatic` at once. -/
theorem TrackUpdate_hysteresis :
    (∀ n : Nat, n ≤ kMaxUncertainFramesStatic →
      applyUpdates ⟨TrackState.kStatic, 0⟩
          (List.replicate n PoseObservation.unavailable) =
        ⟨TrackState.kStatic, n⟩) ∧
    (applyUpdates ⟨TrackState.kStatic, 0⟩
        (List.replicate (kMaxUncertainFramesStatic + 1)
          PoseObservation.unavailable)).track_state = TrackState.kUncertain ∧
    ∀ (c : Nat) (r : ℚ), r < kTransErrorTreshold →
      TrackUpdate ⟨TrackState.kUncertain, c⟩ (PoseObservation.available r) =
        ⟨TrackState.kStatic, 0⟩ := by
  refine ⟨by decide, by decide, ?_⟩
  intro c r h
  simp [TrackUpdate, h]

/-- C6 witness: the concrete scenario of the spec — an `kUncertain` track sees
residual 0.05 and becomes `kStatic`; 3 consecutive unavailable updates keep it
`kStatic` with counter 3, while the theorem's second conjunct is the 4th
update reverting to `kUncertain`. -/
theorem TrackUpdate_hysteresis_witness :
    TrackUpdate ⟨TrackState.kUncertain, 0⟩
        (PoseObservation.available (mkRat 5 100)) =
      ⟨TrackState.kStatic, 0⟩ ∧
    applyUpdates ⟨TrackState.kStatic, 0⟩
        (List.replicate 3 PoseObservation.unavailable) =
      ⟨TrackState.kStatic, 3⟩ :=
  ⟨TrackUpdate_hysteresis.2.2 0 (mkRat 5 100) (by decide),
   TrackUpdate_hysteresis.1 3 (by decide)⟩

/-- Folding `AddFrame` (a `push_back`) over a call sequence appends the
frames in call order. -/
theorem foldl_AddFrame_frames (fs : List TrackFrame) (t : Track) :
    (fs.foldl Track.AddFrame t).frames_ = t.frames_ ++ fs := by
  induction fs generalizing t with
  | nil => simp
  | cons f rest ih =>
    simp [List.foldl_cons, ih, Track.AddFrame, List.append_assoc]

/-- In a non-decreasing chain the head is a lower bound. -/
theorem chain_head_le_all (l : List Int) :
    List.Chain' (· ≤ ·) l → ∀ s, l.head? = some s → ∀ x ∈ l, s ≤ x := by
  induction l with
  | nil => intro _ s hs; simp at hs
  | cons a rest ih =>
    intro h s hs x hx
    have hsa : a = s := by simpa using hs
    subst hsa
    rcases List.mem_cons.mp hx with rfl | hx2
    · exact le_refl _
    · cases rest with
      | nil => simp at hx2
      | cons b rest2 =>
        rcases List.chain'_cons.mp h with ⟨hab, hchain⟩
        exact le_trans hab (ih hchain b (by simp) x hx2)

/-- In a non-decreasing chain the last element is an upper bound. -/
theorem chain_le_getLast (l : List Int) :
    List.Chain' (· ≤ ·) l → ∀ e, l.getLast? = some e → ∀ x ∈ l, x ≤ e := by
  induction l with
  | nil => intro _ e he; simp at he
  | cons a rest ih =>
    intro h e he x hx
    cases rest with
    | nil =>
      have hae : a = e := by simpa using he
      rcases List.mem_cons.mp hx with rfl | hx2
      · exact le_of_eq hae
      · simp at hx2
    | cons b rest2 =>
      rcases List.chain'_cons.mp h with ⟨hab, hchain⟩
      have he2 : (b :: rest2).getLast? = some e := by
        rw [← List.getLast?_cons_cons (a := a)]
        exact he
      rcases List.mem_cons.mp hx with rfl | hx2
      · exact le_trans hab (ih hchain e he2 b (by simp))
      · exact ih hchain e he2 x hx2

/-- C4 counterexample: `AddFrame` validates nothing, so the call sequence with
frame indices 5 then 3 yields a track whose start time 5 exceeds the stored
index 3, and whose stored indices are not non-decreasing — the claim fails for
this sequence of `AddFrame` calls. -/
theorem AddFrame_unordered_counterexample :
    unorderedTrack.GetStartTime = some 5 ∧
    sampleFrame 3 none ∈ unorderedTrack.frames_ ∧
    (sampleFrame 3 none).frame_idx = 3 ∧
    ¬ ((5 : Int) ≤ 3) ∧
    ¬ List.Chain' (· ≤ ·) (unorderedTrack.frames_.map TrackFrame.frame_idx) := by
  have hframes :
      unorderedTrack.frames_ = [sampleFrame 5 none, sampleFrame 3 none] := rfl
  refine ⟨rfl, ?_, rfl, by decide, ?_⟩
  · rw [hframes]
    exact List.mem_cons_of_mem _ (List.mem_cons_self _ _)
  · intro hc
    rw [hframes] at hc
    have h53 : (5 : Int) ≤ 3 := (List.chain'_cons.mp hc).1
    omega

/-- C4 (amended): for every sequence of `AddFrame` calls whose frame indices
are fed in non-decreasing order — the usage the spec's invariant describes —
the resulting track stores exactly those frames in call order, its start time
bounds every stored index from below, its end time bounds every stored index
from above, and the stored indices are non-decreasing. -/
theorem AddFrame_time_bounds (i : Int) (fs : List TrackFrame)
    (hsorted : List.Chain' (· ≤ ·) (fs.map TrackFrame.frame_idx)) :
    (fs.foldl Track.AddFrame (Track.init i)).frames_ = fs ∧
    (∀ f ∈ (fs.foldl Track.AddFrame (Track.init i)).frames_, ∀ s,
      (fs.foldl Track.AddFrame (Track.init i)).GetStartTime = some s →
      s ≤ f.frame_idx) ∧
    (∀ f ∈ (fs.foldl Track.AddFrame (Track.init i)).frames_, ∀ e,
      (fs.foldl Track.AddFrame (Track.init i)).GetEndTime = some e →
      f.frame_idx ≤ e) ∧
    List.Chain' (· ≤ ·)
      ((fs.foldl Track.AddFrame (Track.init i)).frames_.map
        TrackFrame.frame_idx) := by
  have hfr : (fs.foldl Track.AddFrame (Track.init i)).frames_ = fs := by
    simpa [Track.init] using foldl_AddFrame_frames fs (Track.init i)
  refine ⟨hfr, ?_, ?_, ?_⟩
  · intro f hf s hs
    rw [Track.GetStartTime, hfr] at hs
    have hhead : (fs.map TrackFrame.frame_idx).head? = some s := by
      rw [List.head?_map]; exact hs
    refine chain_head_le_all _ hsorted s hhead _ ?_
    exact List.mem_map_of_mem TrackFrame.frame_idx (hfr ▸ hf)
  · intro f hf e he
    rw [Track.GetEndTime, hfr] at he
    have hlast : (fs.map TrackFrame.frame_idx).getLast? = some e := by
      rw [List.getLast?_map]; exact he
    refine chain_le_getLast _ hsorted e hlast _ ?_
    exact List.mem_map_of_mem TrackFrame.frame_idx (hfr ▸ hf)
  · rw [hfr]; exact hsorted

/-- C4 amended-claim witness on a concrete ordered call sequence (indices
2, 4, 4, 9 — non-decreasing with a gap and a repeat). -/
theorem AddFrame_time_bounds_witness :
    (orderedFrames.foldl Track.AddFrame (Track.init 0)).frames_ =
      orderedFrames ∧
    ∀ f ∈ (orderedFrames.foldl Track.AddFrame (Track.init 0)).frames_, ∀ s,
      (orderedFrames.foldl Track.AddFrame (Track.init 0)).GetStartTime =
        some s → s ≤ f.frame_idx :=
  ⟨(AddFrame_time_bounds 0 orderedFrames
      (by simp [orderedFrames, sampleFrame])).1,
   (AddFrame_time_bounds 0 orderedFrames
      (by simp [orderedFrames, sampleFrame])).2.1⟩
